import Mathlib

/-!
Verification of the SmartSorter pipeline (text extraction, LLM-based
classification, plan/apply file sorting, and the plan-editor widget).

Strings are modelled as `List Char` (`Str`), paths as lists of path
components (`PyPath`), and the filesystem as a finite association list of
file paths plus a list of existing directories.  External effects (the
HTTP inference endpoint, the per-format extraction libraries) are modelled
as oracles passed explicitly.
-/

/-- Python strings, modelled as lists of characters. -/
abbrev Str : Type := List Char

/-- Filesystem paths, modelled as the list of path components. -/
abbrev PyPath : Type := List Str

/-- Convenience conversion from a Lean string literal. -/
def chars (s : String) : Str := s.data

/-- The apostrophe character (code 39), removed by `str.replace` in classify. -/
def aposChar : Char := Char.ofNat 39

/-- The double-quote character (code 34), removed by `str.replace` in classify. -/
def quoteChar : Char := Char.ofNat 34

/-- Newline, used by the join in the PDF extractor. -/
def newlineChar : Char := Char.ofNat 10

/-- Characters treated as whitespace by Python `str.strip()` (ASCII part). -/
def isPySpace (c : Char) : Bool :=
  decide (c = Char.ofNat 32) || decide (c = Char.ofNat 9) || decide (c = Char.ofNat 10)
    || decide (c = Char.ofNat 13) || decide (c = Char.ofNat 11) || decide (c = Char.ofNat 12)

/-- Python `str.lower()`, restricted to the ASCII and Cyrillic ranges that the
repository's category names and prompts use. -/
def pyToLower (c : Char) : Char :=
  if 65 ≤ c.toNat ∧ c.toNat ≤ 90 then Char.ofNat (c.toNat + 32)
  else if 1040 ≤ c.toNat ∧ c.toNat ≤ 1071 then Char.ofNat (c.toNat + 32)
  else if c.toNat = 1025 then Char.ofNat 1105
  else c

/-- Python `str.lower()` on a whole string. -/
def pyLowerStr (s : Str) : Str := s.map pyToLower

/-- Python `str.strip()`: drop leading and trailing whitespace. -/
def pyStrip (s : Str) : Str :=
  ((s.dropWhile isPySpace).reverse.dropWhile isPySpace).reverse

/-- Python `str.replace(c, "")`: delete every occurrence of one character. -/
def removeChar (c : Char) (s : Str) : Str := s.filter (fun x => decide (x ≠ c))

/-- Boolean list-prefix test (used for both strings and paths). -/
def isPrefixB {α : Type} [DecidableEq α] : List α → List α → Bool
  | [], _ => true
  | _ :: _, [] => false
  | a :: as, b :: bs => decide (a = b) && isPrefixB as bs

/-- Python substring test `needle in hay` for a non-empty needle
(and `True` on an empty needle, as in Python). -/
def containsSub {α : Type} [DecidableEq α] (needle : List α) : List α → Bool
  | [] => needle.isEmpty
  | b :: t => isPrefixB needle (b :: t) || containsSub needle t

/-- Python `hay.split(needle, 1)[-1]` when the needle occurs: everything after
the first occurrence.  (Only used under a `containsSub` guard.) -/
def afterFirst {α : Type} [DecidableEq α] (needle : List α) : List α → List α
  | [] => []
  | b :: t => if isPrefixB needle (b :: t) then (b :: t).drop needle.length else afterFirst needle t

/-- Association-list lookup, modelling Python `dict.get` (keys are unique in
every dictionary the source builds). -/
def alookup {κ α : Type} [DecidableEq κ] : List (κ × α) → κ → Option α
  | [], _ => none
  | (k, v) :: t, q => if k = q then some v else alookup t q

/-- Association-list erase of the first binding of a key. -/
def aerase {κ α : Type} [DecidableEq κ] : List (κ × α) → κ → List (κ × α)
  | [], _ => []
  | (k, v) :: t, q => if k = q then t else (k, v) :: aerase t q

/-- The global category mapping from `config.CATEGORIES`: ordered mapping from
category key to destination folder name. -/
def CATEGORIES : List (Str × Str) :=
  [(chars ("Книги"), chars ("Books")),
   (chars ("Проездные документы"), chars ("Travel")),
   (chars ("Бронирования"), chars ("Booking")),
   (chars ("Медицинские документы"), chars ("Medical")),
   (chars ("Финансовые документы"), chars ("Finance")),
   (chars ("Юридические документы"), chars ("Legal")),
   (chars ("Научные статьи"), chars ("Science")),
   (chars ("Бизнес-документы"), chars ("Business")),
   (chars ("Прочее"), chars ("Other"))]

/-- Category keys in dictionary (insertion) order. -/
def catKeys : List Str := CATEGORIES.map Prod.fst

/-- The hard-coded catch-all category label returned by the categorizer. -/
def CATCHALL : Str := chars ("Прочее")

/-- The supported extension allow-list from `config.SUPPORTED_FORMATS`. -/
def SUPPORTED_FORMATS : List Str :=
  [chars (".pdf"), chars (".docx"), chars (".xlsx"),
   chars (".png"), chars (".jpg"), chars (".jpeg")]

/-- The reasoning-closing marker stripped from model responses. -/
def thinkTag : Str := chars ("</think>")

/-- Outcome of the HTTP round trip to the inference endpoint: either some
exception was raised (network, timeout, HTTP status, malformed JSON — both
`except` arms of `classify` behave identically), or a reply content string
was obtained. -/
inductive LLMResponse : Type where
  | failure : LLMResponse
  | success : Str → LLMResponse
  deriving DecidableEq

/-- Line 40 of categorizer.py: `content.strip().replace("'", "")` applied to
the raw reply text. -/
def line40Clean (raw : Str) : Str := removeChar aposChar (pyStrip raw)

/-- Lines 51-53 of categorizer.py: drop everything up to and including the
first reasoning-closing marker, when present. -/
def stripThink (c : Str) : Str :=
  if containsSub thinkTag c then afterFirst thinkTag c else c

/-- Line 56 of categorizer.py: `content.lower().strip().replace("'","").replace('"',"")`. -/
def foldContent (c : Str) : Str :=
  removeChar quoteChar (removeChar aposChar (pyStrip (pyLowerStr c)))

/-- The folded text that the matching steps of `classify` operate on. -/
def foldedResponse (raw : Str) : Str := foldContent (stripThink (line40Clean raw))

/-- Lines 58-61: first category key whose lowered form equals the folded text. -/
def firstExact (keys : List Str) (cl : Str) : Option Str :=
  match keys with
  | [] => none
  | k :: t => if pyLowerStr k = cl then some k else firstExact t cl

/-- Lines 65-68: category keys whose lowered form occurs in the folded text. -/
def substrMatches (keys : List Str) (cl : Str) : List Str :=
  keys.filter (fun k => containsSub (pyLowerStr k) cl)

/-- Python `max(found_categories, key=len)`: first element of maximal length. -/
def pyMaxByLen (x : Str) (xs : List Str) : Str :=
  xs.foldl (fun best y => if best.length < y.length then y else best) x

/-- Lines 58-81 of categorizer.py: exact match, then substring match (single or
longest of several), then the catch-all. -/
def matchCategory (keys : List Str) (cl : Str) : Str :=
  match firstExact keys cl with
  | some k => k
  | none =>
    match substrMatches keys cl with
    | [] => CATCHALL
    | [k] => k
    | k :: k2 :: ks => pyMaxByLen k (k2 :: ks)

/-- Response handling of `Categorizer.classify` after a reply was obtained
(lines 40-81 of categorizer.py). -/
def classifyResponse (keys : List Str) (raw : Str) : Str :=
  matchCategory keys (foldedResponse raw)

/-- The full `Categorizer.classify`: sends the prompt holding the first 4000
characters of the text to the endpoint (modelled by the `respond` oracle) and
parses the reply; any raised exception yields the catch-all label. -/
def Categorizer.classify (keys : List Str) (respond : Str → LLMResponse) (text : Str) : Str :=
  match respond (text.take 4000) with
  | LLMResponse.failure => CATCHALL
  | LLMResponse.success raw => classifyResponse keys raw

/-- Per-file outcome of each external extraction library, abstracted: what
pdfplumber, python-docx, pandas and pytesseract would produce for this file,
or that the library call raises. -/
structure FileData where
  pdfOk : Bool
  pdfPages : List (Option Str)
  docxOk : Bool
  docxParas : List Str
  xlsxOk : Bool
  xlsxSheets : List Str
  imageOk : Bool
  imageText : Str
  deriving DecidableEq

/-- A fixed inert file payload used in concrete test filesystems. -/
def defaultFileData : FileData :=
  { pdfOk := false, pdfPages := [], docxOk := false, docxParas := [],
    xlsxOk := false, xlsxSheets := [], imageOk := false, imageText := [] }

/-- Python `"\n".join(parts)`. -/
def joinNewline : List Str → Str
  | [] => []
  | [s] => s
  | s :: rest => s ++ newlineChar :: joinNewline rest

/-- PDFExtractor.extract: join of per-page `extract_text() or ""`, with every
exception caught and degraded to the empty string. -/
def PDFExtractor.extract (d : FileData) : Str :=
  if d.pdfOk then joinNewline (d.pdfPages.map (fun o => o.getD [])) else []

/-- DocxExtractor.extract: join of the document's paragraph texts, with every
exception caught and degraded to the empty string. -/
def DocxExtractor.extract (d : FileData) : Str :=
  if d.docxOk then joinNewline d.docxParas else []

/-- XlsxExtractor.extract: concatenation of the tabular text of every sheet,
with every exception caught and degraded to the empty string. -/
def XlsxExtractor.extract (d : FileData) : Str :=
  if d.xlsxOk then d.xlsxSheets.foldl (fun acc s => acc ++ s) [] else []

/-- ImageExtractor.extract: the OCR output, with every exception caught and
degraded to the empty string. -/
def ImageExtractor.extract (d : FileData) : Str :=
  if d.imageOk then d.imageText else []

/-- The four extractor classes of extractor.py. -/
inductive ExtractorKind : Type where
  | pdf : ExtractorKind
  | docx : ExtractorKind
  | xlsx : ExtractorKind
  | image : ExtractorKind
  deriving DecidableEq

/-- The `TextExtractor.extractors` dispatch dictionary. -/
def TextExtractor.extractors : List (Str × ExtractorKind) :=
  [(chars (".pdf"), ExtractorKind.pdf),
   (chars (".docx"), ExtractorKind.docx),
   (chars (".xlsx"), ExtractorKind.xlsx),
   (chars (".png"), ExtractorKind.image),
   (chars (".jpg"), ExtractorKind.image),
   (chars (".jpeg"), ExtractorKind.image)]

/-- Run one of the format-specific extractors. -/
def runExtractor : ExtractorKind → FileData → Str
  | ExtractorKind.pdf, d => PDFExtractor.extract d
  | ExtractorKind.docx, d => DocxExtractor.extract d
  | ExtractorKind.xlsx, d => XlsxExtractor.extract d
  | ExtractorKind.image, d => ImageExtractor.extract d

/-- Whether the underlying library call of the selected extractor raises. -/
def extractorRaises : ExtractorKind → FileData → Bool
  | ExtractorKind.pdf, d => !d.pdfOk
  | ExtractorKind.docx, d => !d.docxOk
  | ExtractorKind.xlsx, d => !d.xlsxOk
  | ExtractorKind.image, d => !d.imageOk

/-- TextExtractor.extract: dispatch on the lower-cased extension; unsupported
extensions yield the empty string.  (The Python `or ""` is the identity here
because every format extractor already returns a string.) -/
def TextExtractor.extract (suffix : Str) (d : FileData) : Str :=
  match alookup TextExtractor.extractors (pyLowerStr suffix) with
  | some k => runExtractor k d
  | none => []

/-- Python `pathlib.Path.suffix` of a file name: from the last dot, provided it
is neither the first nor the last character. -/
def pySuffix (name : Str) : Str :=
  match name.reverse.findIdx? (fun c => decide (c = Char.ofNat 46)) with
  | some j =>
    let i := name.length - 1 - j
    if 0 < i ∧ i < name.length - 1 then name.drop i else []
  | none => []

/-- Last path component (`Path.name`). -/
def basename (p : PyPath) : Str := p.getLast?.getD []

/-- The filesystem: an association list of files (path to abstract payload)
and the list of existing directories. -/
structure FS where
  files : List (PyPath × FileData)
  dirs : List PyPath
  deriving DecidableEq

/-- Whether `p` is strictly below the directory `root` (what `root.glob("**/*")`
enumerates). -/
def isUnder (root p : PyPath) : Bool :=
  isPrefixB root p && decide (p ≠ root)

/-- Whether a path has an extension in the supported allow-list. -/
def supportedExt (p : PyPath) : Bool :=
  decide (pyLowerStr (pySuffix (basename p)) ∈ SUPPORTED_FORMATS)

/-- Step 2 of `SmartSorter.sort`: the eligible files below the source dir, in
the filesystem's (deterministic) enumeration order. -/
def filesToSort (fs : FS) (src : PyPath) : List (PyPath × FileData) :=
  fs.files.filter (fun e => isUnder src e.1 && supportedExt e.1)

/-- Append a directory to the directory list if absent. -/
def addDirIfAbsent (ds : List PyPath) (p : PyPath) : List PyPath :=
  if p ∈ ds then ds else ds ++ [p]

/-- All non-empty prefixes of a path (the chain of ancestors plus the path). -/
def prefixesOf {α : Type} : List α → List (List α)
  | [] => []
  | a :: t => [a] :: (prefixesOf t).map (fun r => a :: r)

/-- `Path.mkdir(parents=True, exist_ok=True)`: create the directory and every
missing ancestor. -/
def mkdirParents (fs : FS) (p : PyPath) : FS :=
  { fs with dirs := (prefixesOf p).foldl addDirIfAbsent fs.dirs }

/-- Step 1 of `SmartSorter.sort`: create one destination folder per category
under the target root. -/
def mkCategoryDirs (fs : FS) (tgt : PyPath) : FS :=
  CATEGORIES.foldl (fun acc c => mkdirParents acc (tgt ++ [c.2])) fs

/-- Lines 51-56 of main.py: choose the category for one file's extracted text.
The boolean records whether the classifier was invoked for this file. -/
def planFileCategory (respond : Str → LLMResponse) (text : Str) : Str × Bool :=
  if text = [] ∨ pyStrip text = [] then (CATCHALL, false)
  else (Categorizer.classify catKeys respond text, true)

/-- Extract the text of one enumerated file, as `sort` does. -/
def extractText (e : PyPath × FileData) : Str :=
  TextExtractor.extract (pySuffix (basename e.1)) e.2

/-- The category key `sort` assigns to one enumerated file. -/
def sortCategory (respond : Str → LLMResponse) (e : PyPath × FileData) : Str :=
  (planFileCategory respond (extractText e)).1

/-- Line 58 of main.py: `CATEGORIES.get(category_name, "Other")`. -/
def sortFolder (respond : Str → LLMResponse) (e : PyPath × FileData) : Str :=
  (alookup CATEGORIES (sortCategory respond e)).getD (chars ("Other"))

/-- The plan pair `sort` appends for one enumerated file. -/
def planEntry (tgt : PyPath) (respond : Str → LLMResponse) (e : PyPath × FileData) :
    PyPath × PyPath :=
  (e.1, tgt ++ [sortFolder respond e])

/-- `SmartSorter.sort`: create the category folders, enumerate the eligible
files and build the sorting plan.  Returns the filesystem after the folder
creation together with the plan. -/
def sortFS (fs : FS) (src tgt : PyPath) (respond : Str → LLMResponse) :
    FS × List (PyPath × PyPath) :=
  (mkCategoryDirs fs tgt,
   (filesToSort (mkCategoryDirs fs tgt) src).map (planEntry tgt respond))

/-- `shutil.move(src, dst_folder)`: into an existing directory the file moves
under its own name and an existing destination path raises; otherwise the file
is renamed to the destination path itself (overwriting a file).  `none` models
the raised exception. -/
def shutilMove (fs : FS) (src dstFolder : PyPath) : Option FS :=
  match alookup fs.files src with
  | none => none
  | some d =>
    if dstFolder ∈ fs.dirs then
      if (alookup fs.files (dstFolder ++ [basename src])).isSome
          ∨ (dstFolder ++ [basename src]) ∈ fs.dirs then none
      else some ⟨aerase fs.files src ++ [(dstFolder ++ [basename src], d)], fs.dirs⟩
    else
      some ⟨(aerase fs.files src).filter (fun e => decide (e.1 ≠ dstFolder))
              ++ [(dstFolder, d)], fs.dirs⟩

/-- `SmartSorter.apply_sort`: move each pair of the plan in order; a failed
move is logged and skipped (returned in the second component, which models the
error log), never aborting the batch nor rolling anything back. -/
def applySort (fs : FS) : List (PyPath × PyPath) → FS × List (PyPath × PyPath)
  | [] => (fs, [])
  | pr :: rest =>
    match shutilMove fs pr.1 pr.2 with
    | some fs2 => applySort fs2 rest
    | none =>
      let r := applySort fs rest
      (r.1, pr :: r.2)

/-- Building a plan with `sort` and applying it unedited with `apply_sort`. -/
def roundTrip (fs : FS) (src tgt : PyPath) (respond : Str → LLMResponse) :
    FS × List (PyPath × PyPath) :=
  applySort (sortFS fs src tgt respond).1 (sortFS fs src tgt respond).2

/-- Final location promised for one eligible file: target root, classified
category folder, original file name. -/
def destPath (tgt : PyPath) (respond : Str → LLMResponse) (e : PyPath × FileData) : PyPath :=
  (planEntry tgt respond e).2 ++ [basename e.1]

/-- The sentinel shown in the plan editor for an excluded entry. -/
def EXCLUDED_DISPLAY_TEXT : Str := chars ("--- ИСКЛЮЧЕНО ---")

/-- One row of the plan editor's `rich_data` model (gui.py, preview window).
The `type` dictionary key is spelled `ftype` here. -/
structure RichItem where
  name : Str
  ftype : Str
  size : Nat
  category : Str
  last_known_category : Str
  original_index : Nat
  is_excluded : Bool
  is_changed : Bool
  deriving DecidableEq

/-- The exclusion-toggle branch of the preview window's event loop
(gui.py lines 221-226): flip the flag, then show the sentinel when excluded
and the last known category when un-excluded. -/
def toggleExclusion (it : RichItem) : RichItem :=
  let it2 := { it with is_excluded := !it.is_excluded }
  if it2.is_excluded then { it2 with category := EXCLUDED_DISPLAY_TEXT }
  else { it2 with category := it2.last_known_category }

/-- The category-reassignment branch of the preview window's event loop
(gui.py lines 228-232). -/
def reassignCategory (k : Str) (it : RichItem) : RichItem :=
  { it with category := k, last_known_category := k,
            is_excluded := false, is_changed := true }

/-- Claim C1 as stated: after sort-then-apply, every originally-eligible file
sits at its classified destination, its original path is gone, and its new
home is not below the source directory. -/
def C1Statement (fs : FS) (src tgt : PyPath) (respond : Str → LLMResponse) : Prop :=
  ∀ e ∈ filesToSort fs src,
    alookup (roundTrip fs src tgt respond).1.files (destPath tgt respond e) = some e.2 ∧
    alookup (roundTrip fs src tgt respond).1.files e.1 = none ∧
    isUnder src (destPath tgt respond e) = false

/-- Claim C4 as stated: when a raw model response contains the marker, the
chosen category is computed from the raw text after that marker only. -/
def C4Statement : Prop :=
  ∀ (keys : List Str) (raw : Str), containsSub thinkTag raw = true →
    classifyResponse keys raw = matchCategory keys (foldContent (afterFirst thinkTag raw))

/-- Claim C6 as stated: the classifier is invoked exactly on non-empty
extracted text, and empty text gets the catch-all directly. -/
def C6Statement : Prop :=
  ∀ (respond : Str → LLMResponse) (text : Str),
    (text ≠ [] → (planFileCategory respond text).2 = true) ∧
    (text = [] → planFileCategory respond text = (CATCHALL, false))

/-- Claim C7 as stated: `sort` changes nothing except creating exactly one
subdirectory per category folder name under the target root. -/
def C7Statement (fs : FS) (src tgt : PyPath) (respond : Str → LLMResponse) : Prop :=
  (sortFS fs src tgt respond).1.files = fs.files ∧
  ∀ q, q ∈ (sortFS fs src tgt respond).1.dirs ↔
    (q ∈ fs.dirs ∨ ∃ c ∈ CATEGORIES, q = tgt ++ [c.2])

/-- Response oracle where the request always raises. -/
def respondFail : Str → LLMResponse := fun _ => LLMResponse.failure

/-- Raw response whose apostrophe removal fabricates an earlier marker. -/
def fabricatedMarkerRaw : Str := chars ("</th") ++ aposChar :: chars ("ink>Книги</think>x")

/-- Raw response with a reasoning segment before the answer. -/
def reasoningRaw : Str := chars ("<think>рассуждение</think> Книги")

/-- Raw response naming two categories at once. -/
def twoCategoryRaw : Str := chars ("Категория: Проездные документы или Книги")

/-- Filesystem with one eligible file, for the round-trip counterexample where
the target root lies inside the source directory. -/
def fsNested : FS :=
  { files := [([chars ("d"), chars ("a.pdf")], defaultFileData)],
    dirs := [[chars ("d")]] }

/-- Filesystem with one eligible file and a disjoint target, for the
round-trip witness. -/
def fsDisjoint : FS :=
  { files := [([chars ("s"), chars ("a.pdf")], defaultFileData)],
    dirs := [[chars ("s")]] }

/-- Pristine empty filesystem, for the directory-creation counterexample. -/
def fsEmpty : FS := { files := [], dirs := [] }

/-- Filesystem for the apply-continues-after-failure witness. -/
def fsApply : FS :=
  { files := [([chars ("x1")], defaultFileData), ([chars ("x3")], defaultFileData)],
    dirs := [[chars ("T")]] }

/-- Plan fragments for the apply-continues-after-failure witness: the middle
pair's source does not exist, so its move raises. -/
def applyPlanPre : List (PyPath × PyPath) := [([chars ("x1")], [chars ("T")])]

/-- The failing middle pair of the apply witness. -/
def applyPairBad : PyPath × PyPath := ([chars ("x2")], [chars ("T")])

/-- The tail of the apply witness plan. -/
def applyPlanPost : List (PyPath × PyPath) := [([chars ("x3")], [chars ("T")])]

/-- A plan-editor row in its freshly planned state. -/
def demoItem : RichItem :=
  { name := chars ("a.pdf"), ftype := chars (".pdf"), size := 7,
    category := chars ("Книги"), last_known_category := chars ("Книги"),
    original_index := 0, is_excluded := false, is_changed := false }

theorem alookup_append_some {κ α : Type} [DecidableEq κ] {l1 l2 : List (κ × α)} {q : κ}
    {v : α} (h : alookup l1 q = some v) : alookup (l1 ++ l2) q = some v := by
  induction l1 with
  | nil => simp [alookup] at h
  | cons kv t ih =>
    obtain ⟨k, w⟩ := kv
    by_cases hk : k = q
    · simpa [alookup, hk] using h
    · rw [List.cons_append]
      simp only [alookup, if_neg hk] at h ⊢
      exact ih h

theorem alookup_append_none {κ α : Type} [DecidableEq κ] {l1 l2 : List (κ × α)} {q : κ}
    (h : alookup l1 q = none) : alookup (l1 ++ l2) q = alookup l2 q := by
  induction l1 with
  | nil => simp
  | cons kv t ih =>
    obtain ⟨k, w⟩ := kv
    by_cases hk : k = q
    · simp [alookup, hk] at h
    · rw [List.cons_append]
      simp only [alookup, if_neg hk] at h ⊢
      exact ih h

theorem alookup_eq_none_iff {κ α : Type} [DecidableEq κ] {l : List (κ × α)} {q : κ} :
    alookup l q = none ↔ q ∉ l.map Prod.fst := by
  induction l with
  | nil => simp [alookup]
  | cons kv t ih =>
    obtain ⟨k, w⟩ := kv
    by_cases hk : k = q
    · subst hk
      simp [alookup]
    · simp [alookup, hk, ih, Ne.symm hk]

theorem aerase_sublist {κ α : Type} [DecidableEq κ] (l : List (κ × α)) (q : κ) :
    List.Sublist (aerase l q) l := by
  induction l with
  | nil => simp [aerase]
  | cons kv t ih =>
    obtain ⟨k, w⟩ := kv
    by_cases hk : k = q
    · simp [aerase, hk]
    · simpa [aerase, hk] using List.Sublist.cons₂ (k, w) ih

theorem alookup_aerase_ne {κ α : Type} [DecidableEq κ] {l : List (κ × α)} {p q : κ}
    (hne : p ≠ q) : alookup (aerase l q) p = alookup l p := by
  induction l with
  | nil => rfl
  | cons kv t ih =>
    obtain ⟨k, w⟩ := kv
    by_cases hk : k = q
    · subst hk
      have hkp : k ≠ p := fun he => hne he.symm
      simp [aerase, alookup, hkp]
    · by_cases hp : k = p
      · subst hp
        simp [aerase, alookup, hk]
      · simp [aerase, alookup, hk, hp, ih]

theorem alookup_aerase_none {κ α : Type} [DecidableEq κ] {l : List (κ × α)} {p q : κ}
    (h : alookup l p = none) : alookup (aerase l q) p = none := by
  rw [alookup_eq_none_iff] at h ⊢
  intro hm
  exact h (((aerase_sublist l q).map Prod.fst).subset hm)

theorem alookup_aerase_self {κ α : Type} [DecidableEq κ] {l : List (κ × α)} {q : κ}
    (hn : (l.map Prod.fst).Nodup) : alookup (aerase l q) q = none := by
  induction l with
  | nil => simp [aerase, alookup]
  | cons kv t ih =>
    obtain ⟨k, w⟩ := kv
    rw [List.map_cons, List.nodup_cons] at hn
    by_cases hk : k = q
    · subst hk
      simp only [aerase, if_pos rfl]
      rw [alookup_eq_none_iff]
      exact hn.1
    · simp [aerase, alookup, hk, ih hn.2]

theorem alookup_of_mem {κ α : Type} [DecidableEq κ] {l : List (κ × α)} {q : κ} {v : α}
    (hmem : (q, v) ∈ l) (hn : (l.map Prod.fst).Nodup) : alookup l q = some v := by
  induction l with
  | nil => simp at hmem
  | cons kv t ih =>
    obtain ⟨k, w⟩ := kv
    rw [List.map_cons, List.nodup_cons] at hn
    rcases List.mem_cons.mp hmem with he | ht
    · injection he with h1 h2
      subst h1
      subst h2
      simp [alookup]
    · by_cases hk : k = q
      · subst hk
        exact absurd (List.mem_map_of_mem Prod.fst ht) hn.1
      · simp only [alookup, if_neg hk]
        exact ih ht hn.2

theorem alookup_some_mem_values {κ α : Type} [DecidableEq κ] {l : List (κ × α)} {q : κ}
    {v : α} (h : alookup l q = some v) : v ∈ l.map Prod.snd := by
  induction l with
  | nil => simp [alookup] at h
  | cons kv t ih =>
    obtain ⟨k, w⟩ := kv
    by_cases hk : k = q
    · simp [alookup, hk] at h
      simp [h]
    · simp only [alookup, if_neg hk] at h
      simp [ih h]

theorem move_keys_nodup {κ α : Type} [DecidableEq κ] {l : List (κ × α)} {q r : κ} {d : α}
    (hn : (l.map Prod.fst).Nodup) (hnone : alookup l r = none) :
    ((aerase l q ++ [(r, d)]).map Prod.fst).Nodup := by
  rw [List.map_append, List.nodup_append]
  refine ⟨((aerase_sublist l q).map Prod.fst).nodup hn, by simp, ?_⟩
  intro x hx hxr
  simp at hxr
  subst hxr
  rw [alookup_eq_none_iff] at hnone
  exact hnone (((aerase_sublist l q).map Prod.fst).subset hx)

theorem isPrefixB_refl {α : Type} [DecidableEq α] (l : List α) : isPrefixB l l = true := by
  induction l with
  | nil => rfl
  | cons a t ih => simp [isPrefixB, ih]

theorem isPrefixB_concat {α : Type} [DecidableEq α] {q l : List α} {a : α} :
    isPrefixB q (l ++ [a]) = true ↔ (isPrefixB q l = true ∨ q = l ++ [a]) := by
  induction q generalizing l with
  | nil => simp [isPrefixB]
  | cons x xs ih =>
    cases l with
    | nil =>
      cases xs with
      | nil => simp [isPrefixB]
      | cons y ys => simp [isPrefixB]
    | cons y ys =>
      simp only [List.cons_append, isPrefixB, Bool.and_eq_true, decide_eq_true_eq,
        List.cons.injEq, List.append_eq, ih]
      tauto

theorem mem_prefixesOf {α : Type} [DecidableEq α] {q p : List α} :
    q ∈ prefixesOf p ↔ (q ≠ [] ∧ isPrefixB q p = true) := by
  induction p generalizing q with
  | nil => cases q <;> simp [prefixesOf, isPrefixB]
  | cons a t ih =>
    cases q with
    | nil => simp [prefixesOf]
    | cons x xs =>
      simp only [prefixesOf, List.mem_cons, List.mem_map, isPrefixB, Bool.and_eq_true,
        decide_eq_true_eq, ne_eq, reduceCtorEq, not_false_eq_true, true_and]
      constructor
      · rintro (h | ⟨r, hr, hx⟩)
        · injection h with h1 h2
          subst h1
          subst h2
          simp [isPrefixB]
        · injection hx with h1 h2
          subst h1
          subst h2
          exact ⟨rfl, (ih.mp hr).2⟩
      · rintro ⟨rfl, h⟩
        cases xs with
        | nil => left; rfl
        | cons y ys =>
          right
          exact ⟨y :: ys, ih.mpr ⟨by simp, h⟩, rfl⟩

theorem mem_addDirIfAbsent {ds : List PyPath} {p q : PyPath} :
    q ∈ addDirIfAbsent ds p ↔ (q ∈ ds ∨ q = p) := by
  unfold addDirIfAbsent
  split
  · rename_i hmem
    constructor
    · exact Or.inl
    · rintro (h | rfl)
      · exact h
      · exact hmem
  · simp [List.mem_append]

theorem mem_foldl_addDir :
    ∀ (ps : List PyPath) (ds : List PyPath) (q : PyPath),
      q ∈ ps.foldl addDirIfAbsent ds ↔ (q ∈ ds ∨ q ∈ ps) := by
  intro ps
  induction ps with
  | nil => simp
  | cons p pt ih =>
    intro ds q
    rw [List.foldl_cons, ih, mem_addDirIfAbsent]
    simp [List.mem_cons]
    tauto

theorem mem_mkdirParents {fs : FS} {p q : PyPath} :
    q ∈ (mkdirParents fs p).dirs ↔ (q ∈ fs.dirs ∨ q ∈ prefixesOf p) := by
  unfold mkdirParents
  exact mem_foldl_addDir (prefixesOf p) fs.dirs q

theorem foldMkdir_files (tgt : PyPath) :
    ∀ (cs : List (Str × Str)) (fs : FS),
      (cs.foldl (fun acc c => mkdirParents acc (tgt ++ [c.2])) fs).files = fs.files := by
  intro cs
  induction cs with
  | nil => intro fs; rfl
  | cons c ct ih =>
    intro fs
    rw [List.foldl_cons, ih]
    rfl

theorem mkCategoryDirs_files (fs : FS) (tgt : PyPath) :
    (mkCategoryDirs fs tgt).files = fs.files :=
  foldMkdir_files tgt CATEGORIES fs

theorem mem_foldMkdir_dirs (tgt : PyPath) :
    ∀ (cs : List (Str × Str)) (fs : FS) (q : PyPath),
      q ∈ (cs.foldl (fun acc c => mkdirParents acc (tgt ++ [c.2])) fs).dirs ↔
        (q ∈ fs.dirs ∨ ∃ c ∈ cs, q ∈ prefixesOf (tgt ++ [c.2])) := by
  intro cs
  induction cs with
  | nil => simp
  | cons c ct ih =>
    intro fs q
    rw [List.foldl_cons, ih, mem_mkdirParents]
    simp only [List.mem_cons]
    constructor
    · rintro ((h | h) | ⟨c2, hc2, h⟩)
      · exact Or.inl h
      · exact Or.inr ⟨c, Or.inl rfl, h⟩
      · exact Or.inr ⟨c2, Or.inr hc2, h⟩
    · rintro (h | ⟨c2, (rfl | hc2), h⟩)
      · exact Or.inl (Or.inl h)
      · exact Or.inl (Or.inr h)
      · exact Or.inr ⟨c2, hc2, h⟩

theorem mem_mkCategoryDirs {fs : FS} {tgt q : PyPath} :
    q ∈ (mkCategoryDirs fs tgt).dirs ↔
      (q ∈ fs.dirs ∨ ∃ c ∈ CATEGORIES, q ≠ [] ∧ isPrefixB q (tgt ++ [c.2]) = true) := by
  unfold mkCategoryDirs
  rw [mem_foldMkdir_dirs tgt CATEGORIES fs q]
  simp [mem_prefixesOf]

theorem catDir_mem_mkCategoryDirs {fs : FS} {tgt : PyPath} {c : Str × Str}
    (hc : c ∈ CATEGORIES) : tgt ++ [c.2] ∈ (mkCategoryDirs fs tgt).dirs := by
  rw [mem_mkCategoryDirs]
  exact Or.inr ⟨c, hc, by simp, isPrefixB_refl _⟩

theorem filesToSort_mkCategory (fs : FS) (src tgt : PyPath) :
    filesToSort (mkCategoryDirs fs tgt) src = filesToSort fs src := by
  unfold filesToSort
  rw [mkCategoryDirs_files]

theorem firstExact_eq_none {keys : List Str} {cl : Str}
    (h : ∀ k ∈ keys, pyLowerStr k ≠ cl) : firstExact keys cl = none := by
  induction keys with
  | nil => rfl
  | cons k t ih =>
    simp only [firstExact, if_neg (h k (List.mem_cons_self k t))]
    exact ih fun k2 hk2 => h k2 (List.mem_cons_of_mem k hk2)

theorem firstExact_mem {keys : List Str} {cl k : Str}
    (h : firstExact keys cl = some k) : k ∈ keys := by
  induction keys with
  | nil => simp [firstExact] at h
  | cons k1 t ih =>
    by_cases hk : pyLowerStr k1 = cl
    · simp only [firstExact, if_pos hk] at h
      injection h with h1
      simp [h1]
    · simp only [firstExact, if_neg hk] at h
      exact List.mem_cons_of_mem k1 (ih h)

theorem substrMatches_subset {keys : List Str} {cl k : Str}
    (h : k ∈ substrMatches keys cl) : k ∈ keys :=
  (List.mem_filter.mp h).1

theorem pyMaxByLen_mem : ∀ (xs : List Str) (x : Str), pyMaxByLen x xs ∈ x :: xs := by
  intro xs
  induction xs with
  | nil => intro x; simp [pyMaxByLen]
  | cons y ys ih =>
    intro x
    have h1 : pyMaxByLen x (y :: ys) = pyMaxByLen (if x.length < y.length then y else x) ys := rfl
    rw [h1]
    rcases List.mem_cons.mp (ih (if x.length < y.length then y else x)) with he | ht
    · rw [he]
      by_cases hl : x.length < y.length <;> simp [hl]
    · simp [List.mem_cons_of_mem, ht]

theorem pyMaxByLen_le :
    ∀ (xs : List Str) (x y : Str), y ∈ x :: xs → y.length ≤ (pyMaxByLen x xs).length := by
  intro xs
  induction xs with
  | nil =>
    intro x y hy
    simp at hy
    simp [pyMaxByLen, hy]
  | cons z zs ih =>
    intro x y hy
    have h1 : pyMaxByLen x (z :: zs) = pyMaxByLen (if x.length < z.length then z else x) zs := rfl
    rw [h1]
    have hxle : x.length ≤ (if x.length < z.length then z else x).length := by
      by_cases hl : x.length < z.length <;> simp [hl]
      omega
    have hzle : z.length ≤ (if x.length < z.length then z else x).length := by
      by_cases hl : x.length < z.length <;> simp [hl]
      omega
    have hhead : ((if x.length < z.length then z else x)).length
        ≤ (pyMaxByLen (if x.length < z.length then z else x) zs).length :=
      ih _ _ (List.mem_cons_self _ _)
    rcases List.mem_cons.mp hy with rfl | hy2
    · exact le_trans hxle hhead
    · rcases List.mem_cons.mp hy2 with rfl | hy3
      · exact le_trans hzle hhead
      · exact ih _ _ (List.mem_cons_of_mem _ hy3)

theorem shutilMove_dirs {fs : FS} {src df : PyPath} {fs2 : FS}
    (h : shutilMove fs src df = some fs2) : fs2.dirs = fs.dirs := by
  unfold shutilMove at h
  split at h
  · exact absurd h (by simp)
  · split at h
    · split at h
      · exact absurd h (by simp)
      · injection h with h2
        rw [← h2]
    · injection h with h2
      rw [← h2]

theorem shutilMove_some_dir {fs : FS} {src df : PyPath} {fs2 : FS}
    (hdir : df ∈ fs.dirs) (hm : shutilMove fs src df = some fs2) :
    ∃ d, alookup fs.files src = some d ∧
      alookup fs.files (df ++ [basename src]) = none ∧
      (df ++ [basename src]) ∉ fs.dirs ∧
      fs2 = ⟨aerase fs.files src ++ [(df ++ [basename src], d)], fs.dirs⟩ := by
  unfold shutilMove at hm
  split at hm
  · exact absurd hm (by simp)
  · rename_i d hl
    rw [if_pos hdir] at hm
    split at hm
    · exact absurd hm (by simp)
    · rename_i hcond
      push_neg at hcond
      injection hm with h2
      refine ⟨d, hl, ?_, hcond.2, h2.symm⟩
      exact Option.not_isSome_iff_eq_none.mp hcond.1

theorem applySort_dirs : ∀ (plan : List (PyPath × PyPath)) (fs : FS),
    (applySort fs plan).1.dirs = fs.dirs := by
  intro plan
  induction plan with
  | nil => intro fs; rfl
  | cons pr rest ih =>
    intro fs
    cases hm : shutilMove fs pr.1 pr.2 with
    | some fs2 =>
      simp only [applySort, hm]
      rw [ih fs2, shutilMove_dirs hm]
    | none =>
      simp only [applySort, hm]
      exact ih fs

theorem applySort_preserves_some :
    ∀ (plan : List (PyPath × PyPath)) (fs : FS) (q : PyPath) (v : FileData),
      (applySort fs plan).2 = [] →
      (∀ pr ∈ plan, pr.2 ∈ fs.dirs) →
      alookup fs.files q = some v →
      (∀ pr ∈ plan, q ≠ pr.1) →
      alookup (applySort fs plan).1.files q = some v := by
  intro plan
  induction plan with
  | nil =>
    intro fs q v _ _ hq _
    exact hq
  | cons hd rest ih =>
    intro fs q v hfail hdirs hq hne
    cases hm : shutilMove fs hd.1 hd.2 with
    | none =>
      exfalso
      simp [applySort, hm] at hfail
    | some fs2 =>
      obtain ⟨d, hlk, hdstnone, hdstdir, hfs2⟩ :=
        shutilMove_some_dir (hdirs hd (List.mem_cons_self hd rest)) hm
      simp only [applySort, hm]
      apply ih fs2 q v
      · simpa [applySort, hm] using hfail
      · intro pr hpr
        rw [shutilMove_dirs hm]
        exact hdirs pr (List.mem_cons_of_mem hd hpr)
      · rw [hfs2]
        have h1 : alookup (aerase fs.files hd.1) q = some v := by
          rw [alookup_aerase_ne (hne hd (List.mem_cons_self hd rest))]
          exact hq
        exact alookup_append_some h1
      · intro pr hpr
        exact hne pr (List.mem_cons_of_mem hd hpr)

theorem applySort_preserves_none :
    ∀ (plan : List (PyPath × PyPath)) (fs : FS) (q : PyPath),
      (applySort fs plan).2 = [] →
      (∀ pr ∈ plan, pr.2 ∈ fs.dirs) →
      alookup fs.files q = none →
      (∀ pr ∈ plan, q ≠ pr.2 ++ [basename pr.1]) →
      alookup (applySort fs plan).1.files q = none := by
  intro plan
  induction plan with
  | nil =>
    intro fs q _ _ hq _
    exact hq
  | cons hd rest ih =>
    intro fs q hfail hdirs hq hne
    cases hm : shutilMove fs hd.1 hd.2 with
    | none =>
      exfalso
      simp [applySort, hm] at hfail
    | some fs2 =>
      obtain ⟨d, hlk, hdstnone, hdstdir, hfs2⟩ :=
        shutilMove_some_dir (hdirs hd (List.mem_cons_self hd rest)) hm
      simp only [applySort, hm]
      apply ih fs2 q
      · simpa [applySort, hm] using hfail
      · intro pr hpr
        rw [shutilMove_dirs hm]
        exact hdirs pr (List.mem_cons_of_mem hd hpr)
      · rw [hfs2]
        rw [alookup_append_none (alookup_aerase_none hq)]
        have hq2 : hd.2 ++ [basename hd.1] ≠ q :=
          fun he => hne hd (List.mem_cons_self hd rest) he.symm
        simp [alookup, hq2]
      · intro pr hpr
        exact hne pr (List.mem_cons_of_mem hd hpr)

theorem applySort_noFail_spec :
    ∀ (plan : List (PyPath × PyPath)) (fs : FS),
      (applySort fs plan).2 = [] →
      (∀ pr ∈ plan, pr.2 ∈ fs.dirs) →
      ((fs.files.map Prod.fst).Nodup) →
      ((plan.map Prod.fst).Nodup) →
      (∀ pr ∈ plan, ∀ pr2 ∈ plan, pr.1 ≠ pr2.2 ++ [basename pr2.1]) →
      ∀ pr ∈ plan, ∀ v, alookup fs.files pr.1 = some v →
        alookup (applySort fs plan).1.files (pr.2 ++ [basename pr.1]) = some v ∧
        alookup (applySort fs plan).1.files pr.1 = none := by
  intro plan
  induction plan with
  | nil =>
    intro fs _ _ _ _ _ pr hpr
    simp at hpr
  | cons hd rest ih =>
    intro fs hfail hdirs hnodup hplannd hsd pr hpr v hv
    cases hm : shutilMove fs hd.1 hd.2 with
    | none =>
      exfalso
      simp [applySort, hm] at hfail
    | some fs2 =>
      obtain ⟨d, hlk, hdstnone, hdstdir, hfs2⟩ :=
        shutilMove_some_dir (hdirs hd (List.mem_cons_self hd rest)) hm
      have hfail2 : (applySort fs2 rest).2 = [] := by
        simpa [applySort, hm] using hfail
      have hdirs2 : ∀ pr2 ∈ rest, pr2.2 ∈ fs2.dirs := by
        intro pr2 h2
        rw [shutilMove_dirs hm]
        exact hdirs pr2 (List.mem_cons_of_mem hd h2)
      have hnodup2 : (fs2.files.map Prod.fst).Nodup := by
        rw [hfs2]
        exact move_keys_nodup hnodup hdstnone
      rw [List.map_cons, List.nodup_cons] at hplannd
      rcases List.mem_cons.mp hpr with rfl | hprrest
      · have hdv : d = v := by
          rw [hlk] at hv
          injection hv
        subst hdv
        constructor
        · have hq2 : alookup fs2.files (pr.2 ++ [basename pr.1]) = some d := by
            rw [hfs2, alookup_append_none (alookup_aerase_none hdstnone)]
            simp [alookup]
          simp only [applySort, hm]
          apply applySort_preserves_some rest fs2 _ d hfail2 hdirs2 hq2
          intro pr2 hpr2
          exact (hsd pr2 (List.mem_cons_of_mem pr hpr2) pr (List.mem_cons_self pr rest)).symm
        · have hq2 : alookup fs2.files pr.1 = none := by
            rw [hfs2, alookup_append_none (alookup_aerase_self hnodup)]
            have hne1 : pr.2 ++ [basename pr.1] ≠ pr.1 :=
              fun he => hsd pr (List.mem_cons_self pr rest) pr (List.mem_cons_self pr rest) he.symm
            simp [alookup, hne1]
          simp only [applySort, hm]
          apply applySort_preserves_none rest fs2 _ hfail2 hdirs2 hq2
          intro pr2 hpr2
          exact hsd pr (List.mem_cons_self pr rest) pr2 (List.mem_cons_of_mem pr hpr2)
      · have hprne : pr.1 ≠ hd.1 := by
          intro he
          exact hplannd.1 (he ▸ List.mem_map_of_mem Prod.fst hprrest)
        have hv2 : alookup fs2.files pr.1 = some v := by
          rw [hfs2]
          have h1 : alookup (aerase fs.files hd.1) pr.1 = some v := by
            rw [alookup_aerase_ne hprne]
            exact hv
          exact alookup_append_some h1
        have hsd2 : ∀ p1 ∈ rest, ∀ p2 ∈ rest, p1.1 ≠ p2.2 ++ [basename p2.1] := by
          intro p1 h1 p2 h2
          exact hsd p1 (List.mem_cons_of_mem hd h1) p2 (List.mem_cons_of_mem hd h2)
        have := ih fs2 hfail2 hdirs2 hnodup2 hplannd.2 hsd2 pr hprrest v hv2
        simpa [applySort, hm] using this

theorem matchCategory_mem (keys : List Str) (cl : Str) :
    matchCategory keys cl ∈ keys ∨ matchCategory keys cl = CATCHALL := by
  unfold matchCategory
  cases hf : firstExact keys cl with
  | some k =>
    simp only [hf]
    exact Or.inl (firstExact_mem hf)
  | none =>
    simp only [hf]
    cases hm : substrMatches keys cl with
    | nil => simp only [hm]; exact Or.inr trivial
    | cons k ks =>
      cases ks with
      | nil =>
        simp only [hm]
        exact Or.inl (@substrMatches_subset keys cl k (by rw [hm]; exact List.mem_cons_self k []))
      | cons k2 ks2 =>
        simp only [hm]
        exact Or.inl (@substrMatches_subset keys cl _ (by rw [hm]; exact pyMaxByLen_mem (k2 :: ks2) k))

/-- Claim C2: for every input text, when the request to the inference endpoint
raises (network, timeout or protocol error), `classify` does not raise and
returns the catch-all category. -/
theorem claim_C2 (keys : List Str) (respond : Str → LLMResponse) (text : Str)
    (h : respond (text.take 4000) = LLMResponse.failure) :
    Categorizer.classify keys respond text = CATCHALL := by
  unfold Categorizer.classify
  rw [h]

/-- Witness for claim C2 at a concrete text and an always-failing endpoint. -/
theorem claim_C2_witness :
    ((fun _ : Str => LLMResponse.failure) ((chars ("счет")).take 4000) = LLMResponse.failure) ∧
    Categorizer.classify catKeys (fun _ => LLMResponse.failure) (chars ("счет")) = CATCHALL :=
  ⟨rfl, claim_C2 catKeys (fun _ => LLMResponse.failure) (chars ("счет")) rfl⟩

/-- Claim C3: when the folded response equals no category key exactly and at
least two category keys occur in it as substrings, `classify` returns one of
the matching keys of maximal length (the longest match). -/
theorem claim_C3 (keys : List Str) (raw : Str)
    (hexact : ∀ k ∈ keys, pyLowerStr k ≠ foldedResponse raw)
    (hmulti : 2 ≤ (substrMatches keys (foldedResponse raw)).length) :
    classifyResponse keys raw ∈ substrMatches keys (foldedResponse raw) ∧
      ∀ k ∈ substrMatches keys (foldedResponse raw),
        k.length ≤ (classifyResponse keys raw).length := by
  unfold classifyResponse matchCategory
  simp only [firstExact_eq_none hexact]
  cases hm : substrMatches keys (foldedResponse raw) with
  | nil => rw [hm] at hmulti; simp at hmulti
  | cons k ks =>
    cases ks with
    | nil => rw [hm] at hmulti; simp at hmulti
    | cons k2 ks2 =>
      simp only [hm]
      exact ⟨pyMaxByLen_mem (k2 :: ks2) k, fun x hx => pyMaxByLen_le (k2 :: ks2) k x hx⟩

/-- Witness for claim C3: a response naming two categories resolves to the
longer key. -/
theorem claim_C3_witness :
    (∀ k ∈ catKeys, pyLowerStr k ≠ foldedResponse twoCategoryRaw) ∧
    2 ≤ (substrMatches catKeys (foldedResponse twoCategoryRaw)).length ∧
    classifyResponse catKeys twoCategoryRaw ∈ substrMatches catKeys (foldedResponse twoCategoryRaw) ∧
    ∀ k ∈ substrMatches catKeys (foldedResponse twoCategoryRaw),
      k.length ≤ (classifyResponse catKeys twoCategoryRaw).length := by
  have h := claim_C3 catKeys twoCategoryRaw (by decide) (by decide)
  exact ⟨by decide, by decide, h.1, h.2⟩

/-- Counterexample to claim C4 as stated: in the raw reply
`</th'ink>Книги</think>x` the marker only occurs after `Книги`, so computing
only from the raw text after the marker would give the catch-all; but
`classify` deletes apostrophes first, which fabricates a marker at the very
start, and it classifies the text as `Книги`. -/
theorem claim_C4_counterexample : ¬ C4Statement := by
  intro h
  have := h catKeys fabricatedMarkerRaw (by decide)
  exact absurd this (by decide)

/-- Claim C4 (amended): after the whitespace trim and apostrophe removal that
`classify` performs on the reply before marker detection, if the resulting
content contains the reasoning-closing marker then the chosen category is
computed only from the text after the first marker occurrence in that
preprocessed content. -/
theorem claim_C4 (keys : List Str) (raw : Str)
    (h : containsSub thinkTag (line40Clean raw) = true) :
    classifyResponse keys raw
      = matchCategory keys (foldContent (afterFirst thinkTag (line40Clean raw))) := by
  unfold classifyResponse foldedResponse stripThink
  rw [h]
  simp

/-- Witness for amended claim C4 at a concrete reasoning-bearing response. -/
theorem claim_C4_witness :
    containsSub thinkTag (line40Clean reasoningRaw) = true ∧
    classifyResponse catKeys reasoningRaw
      = matchCategory catKeys (foldContent (afterFirst thinkTag (line40Clean reasoningRaw))) :=
  ⟨by decide, claim_C4 catKeys reasoningRaw (by decide)⟩

/-- Claim C5: `TextExtractor.extract` is total by construction (it is a Lean
function); an extension outside the dispatch table yields the empty string,
and a supported file whose format-specific library call raises also yields
the empty string. -/
theorem claim_C5 (suffix : Str) (d : FileData) :
    (alookup TextExtractor.extractors (pyLowerStr suffix) = none →
      TextExtractor.extract suffix d = []) ∧
    (∀ k, alookup TextExtractor.extractors (pyLowerStr suffix) = some k →
      extractorRaises k d = true → TextExtractor.extract suffix d = []) := by
  constructor
  · intro h
    unfold TextExtractor.extract
    simp only [h]
  · intro k hk hr
    unfold TextExtractor.extract
    simp only [hk]
    cases k <;>
      simp_all [runExtractor, extractorRaises, PDFExtractor.extract, DocxExtractor.extract,
        XlsxExtractor.extract, ImageExtractor.extract]

/-- Witness for claim C5: an unsupported extension and a corrupt PDF. -/
theorem claim_C5_witness :
    (alookup TextExtractor.extractors (pyLowerStr (chars (".txt"))) = none ∧
      TextExtractor.extract (chars (".txt")) defaultFileData = []) ∧
    (alookup TextExtractor.extractors (pyLowerStr (chars (".PDF"))) = some ExtractorKind.pdf ∧
      extractorRaises ExtractorKind.pdf defaultFileData = true ∧
      TextExtractor.extract (chars (".PDF")) defaultFileData = []) :=
  ⟨⟨by decide, (claim_C5 (chars (".txt")) defaultFileData).1 (by decide)⟩,
   ⟨by decide, by decide,
    (claim_C5 (chars (".PDF")) defaultFileData).2 ExtractorKind.pdf (by decide) (by decide)⟩⟩

/-- Counterexample to claim C6 as stated: the whitespace-only extracted text
`" "` is non-empty, yet `sort` assigns the catch-all directly and never
invokes the classifier. -/
theorem claim_C6_counterexample : ¬ C6Statement := by
  intro h
  have := (h respondFail (chars (" "))).1 (by decide)
  exact absurd this (by decide)

/-- Claim C6 (amended): during planning the classifier is invoked exactly when
the extracted text contains a non-whitespace character; empty or
whitespace-only text gets the catch-all category directly, without invoking
the classifier. -/
theorem claim_C6 (respond : Str → LLMResponse) (text : Str) :
    (pyStrip text = [] → planFileCategory respond text = (CATCHALL, false)) ∧
    (pyStrip text ≠ [] →
      planFileCategory respond text = (Categorizer.classify catKeys respond text, true)) := by
  constructor
  · intro h
    unfold planFileCategory
    rw [if_pos (Or.inr h)]
  · intro h
    unfold planFileCategory
    rw [if_neg]
    rintro (h1 | h2)
    · subst h1
      exact h rfl
    · exact h h2

/-- Witness for amended claim C6 at whitespace-only and at real text. -/
theorem claim_C6_witness :
    (pyStrip (chars (" ")) = [] ∧
      planFileCategory respondFail (chars (" ")) = (CATCHALL, false)) ∧
    (pyStrip (chars ("билет")) ≠ [] ∧
      planFileCategory respondFail (chars ("билет"))
        = (Categorizer.classify catKeys respondFail (chars ("билет")), true)) :=
  ⟨⟨by decide, (claim_C6 respondFail (chars (" "))).1 (by decide)⟩,
   ⟨by decide, (claim_C6 respondFail (chars ("билет"))).2 (by decide)⟩⟩

/-- Claim C9: excluding a plan entry and then un-excluding it restores the
last confirmed category; after a reassignment to `k` the restored category is
`k`, not the originally planned one.  (While excluded, the sentinel is
shown.) -/
theorem claim_C9 (it : RichItem) (k : Str) (h : it.is_excluded = false) :
    (toggleExclusion (toggleExclusion (reassignCategory k it))).category = k ∧
    (toggleExclusion (reassignCategory k it)).category = EXCLUDED_DISPLAY_TEXT ∧
    (toggleExclusion (toggleExclusion it)).category = it.last_known_category := by
  refine ⟨?_, ?_, ?_⟩
  · simp [toggleExclusion, reassignCategory]
  · simp [toggleExclusion, reassignCategory]
  · simp [toggleExclusion, h]

/-- Witness for claim C9 at a concrete plan row reassigned to the catch-all. -/
theorem claim_C9_witness :
    demoItem.is_excluded = false ∧
    (toggleExclusion (toggleExclusion (reassignCategory CATCHALL demoItem))).category = CATCHALL ∧
    (toggleExclusion (reassignCategory CATCHALL demoItem)).category = EXCLUDED_DISPLAY_TEXT ∧
    (toggleExclusion (toggleExclusion demoItem)).category = demoItem.last_known_category := by
  have h := claim_C9 demoItem CATCHALL (by decide)
  exact ⟨by decide, h.1, h.2.1, h.2.2⟩

/-- Claim C10: `classify` always returns either a key of the categories it was
constructed with or the hard-coded literal `Прочее`; with a category set not
containing that key, the returned label can lie outside the set. -/
theorem claim_C10 :
    (∀ (keys : List Str) (respond : Str → LLMResponse) (text : Str),
      Categorizer.classify keys respond text ∈ keys ∨
        Categorizer.classify keys respond text = CATCHALL) ∧
    (Categorizer.classify [chars ("Книги")] respondFail (chars ("x")) = CATCHALL ∧
      CATCHALL ∉ [chars ("Книги")]) := by
  constructor
  · intro keys respond text
    unfold Categorizer.classify
    cases hresp : respond (text.take 4000) with
    | failure => exact Or.inr rfl
    | success raw => exact matchCategory_mem keys (foldedResponse raw)
  · exact ⟨by decide, by decide⟩

/-- Counterexample to claim C7 as stated: on an empty filesystem with target
root `t`, `sort` also creates the directory `t` itself (from
`mkdir(parents=True)`), which is neither pre-existing nor one of the category
subdirectories under the target root. -/
theorem claim_C7_counterexample :
    ¬ C7Statement fsEmpty [chars ("s")] [chars ("t")] respondFail := by
  intro h
  have h2 := (h.2 [chars ("t")]).mp (by decide)
  exact absurd h2 (by decide)

/-- Claim C7 (amended): `sort` moves and deletes nothing — the files are
unchanged — and the directories afterwards are exactly the prior ones plus,
for each category folder name, the folder under the target root together with
its missing ancestors (including the target root itself); these are created
unconditionally, independent of the enumerated files and of every
classification outcome, so each exists even if it ends up empty. -/
theorem claim_C7 (fs : FS) (src tgt : PyPath) (respond : Str → LLMResponse) :
    (sortFS fs src tgt respond).1.files = fs.files ∧
    ∀ q, q ∈ (sortFS fs src tgt respond).1.dirs ↔
      (q ∈ fs.dirs ∨ ∃ c ∈ CATEGORIES, q ≠ [] ∧ isPrefixB q (tgt ++ [c.2]) = true) := by
  constructor
  · exact mkCategoryDirs_files fs tgt
  · intro q
    exact mem_mkCategoryDirs

/-- Claim C8: a failing intermediate move is logged and skipped; the moves
before it are kept (no rollback) and every following pair is still attempted
in order, exactly as if the apply had been run from the post-prefix state. -/
theorem claim_C8 (fs : FS) (p1 p2 : List (PyPath × PyPath)) (b : PyPath × PyPath)
    (hfail : shutilMove (applySort fs p1).1 b.1 b.2 = none) :
    applySort fs (p1 ++ b :: p2) =
      ((applySort (applySort fs p1).1 p2).1,
       (applySort fs p1).2 ++ b :: (applySort (applySort fs p1).1 p2).2) := by
  induction p1 generalizing fs with
  | nil =>
    simp only [applySort] at hfail
    simp [applySort, hfail]
  | cons q t ih =>
    cases hm : shutilMove fs q.1 q.2 with
    | some fs2 =>
      have hfail2 : shutilMove (applySort fs2 t).1 b.1 b.2 = none := by
        simpa [applySort, hm] using hfail
      simp only [List.cons_append, applySort, hm]
      exact ih fs2 hfail2
    | none =>
      have hfail2 : shutilMove (applySort fs t).1 b.1 b.2 = none := by
        simpa [applySort, hm] using hfail
      simp only [List.cons_append, List.append_eq, applySort, hm]
      rw [ih fs hfail2]

/-- Witness for claim C8: the middle pair's source is missing, so its move
raises; the first move sticks and the third is still performed. -/
theorem claim_C8_witness :
    shutilMove (applySort fsApply applyPlanPre).1 applyPairBad.1 applyPairBad.2 = none ∧
    applySort fsApply (applyPlanPre ++ applyPairBad :: applyPlanPost) =
      ((applySort (applySort fsApply applyPlanPre).1 applyPlanPost).1,
       (applySort fsApply applyPlanPre).2
         ++ applyPairBad :: (applySort (applySort fsApply applyPlanPre).1 applyPlanPost).2) :=
  ⟨by decide, claim_C8 fsApply applyPlanPre applyPlanPost applyPairBad (by decide)⟩

theorem sortFolder_mem (respond : Str → LLMResponse) (e : PyPath × FileData) :
    sortFolder respond e ∈ CATEGORIES.map Prod.snd := by
  unfold sortFolder
  cases h : alookup CATEGORIES (sortCategory respond e) with
  | none =>
    simp only [Option.getD_none]
    decide
  | some v =>
    simp only [Option.getD_some]
    exact alookup_some_mem_values h

/-- Counterexample to claim C1 as stated: with target root `d/t` inside the
source directory `d`, the eligible file `d/a.pdf` is moved to
`d/t/Other/a.pdf`, which still lies (recursively) under the source
directory — so an originally-eligible file remains under D. -/
theorem claim_C1_counterexample :
    ¬ C1Statement fsNested [chars ("d")] [chars ("d"), chars ("t")] respondFail := by
  intro h
  have h2 := h ([chars ("d"), chars ("a.pdf")], defaultFileData) (by decide)
  exact absurd h2.2.2 (by decide)

/-- Claim C1 (amended): assume the source tree has no duplicate paths, no
category destination folder lies at or below the source directory (in
particular the target root is not inside the source), and applying the plan
reports no failed move (a move raises when a destination already exists,
e.g. two eligible files with the same name and category).  Then after
sort-then-apply every originally-eligible file below the source sits at
`target/classified-folder/name`, its original path is gone, and its new
location is not below the source directory. -/
theorem claim_C1 (fs : FS) (src tgt : PyPath) (respond : Str → LLMResponse)
    (hnodup : (fs.files.map Prod.fst).Nodup)
    (hdisj : ∀ f ∈ CATEGORIES.map Prod.snd, isPrefixB src (tgt ++ [f]) = false)
    (hok : (roundTrip fs src tgt respond).2 = []) :
    C1Statement fs src tgt respond := by
  intro e he
  have hfsfiles : (mkCategoryDirs fs tgt).files = fs.files := mkCategoryDirs_files fs tgt
  have hrt : roundTrip fs src tgt respond
      = applySort (mkCategoryDirs fs tgt) ((filesToSort fs src).map (planEntry tgt respond)) := by
    unfold roundTrip sortFS
    rw [filesToSort_mkCategory]
  have hfail : (applySort (mkCategoryDirs fs tgt)
      ((filesToSort fs src).map (planEntry tgt respond))).2 = [] := by
    rw [← hrt]
    exact hok
  have hdirs : ∀ pr ∈ (filesToSort fs src).map (planEntry tgt respond),
      pr.2 ∈ (mkCategoryDirs fs tgt).dirs := by
    intro pr hpr2
    obtain ⟨e2, he2, rfl⟩ := List.mem_map.mp hpr2
    obtain ⟨c, hc, hceq⟩ := List.mem_map.mp (sortFolder_mem respond e2)
    have hpl2 : (planEntry tgt respond e2).2 = tgt ++ [sortFolder respond e2] := rfl
    rw [hpl2, ← hceq]
    exact catDir_mem_mkCategoryDirs hc
  have hnodup1 : ((mkCategoryDirs fs tgt).files.map Prod.fst).Nodup := by
    rw [hfsfiles]
    exact hnodup
  have hkeys : ((filesToSort fs src).map (planEntry tgt respond)).map Prod.fst
      = (filesToSort fs src).map Prod.fst := by
    rw [List.map_map]
    rfl
  have hplannd : (((filesToSort fs src).map (planEntry tgt respond)).map Prod.fst).Nodup := by
    rw [hkeys]
    exact List.Nodup.sublist ((List.filter_sublist fs.files).map Prod.fst) hnodup
  have hsd : ∀ pr ∈ (filesToSort fs src).map (planEntry tgt respond),
      ∀ pr2 ∈ (filesToSort fs src).map (planEntry tgt respond),
        pr.1 ≠ pr2.2 ++ [basename pr2.1] := by
    intro pr hpr1 pr2 hpr2 heq
    obtain ⟨e1, he1, rfl⟩ := List.mem_map.mp hpr1
    obtain ⟨e2, he2, rfl⟩ := List.mem_map.mp hpr2
    have h1 := (List.mem_filter.mp he1).2
    rw [Bool.and_eq_true] at h1
    have hu1 : isPrefixB src e1.1 = true ∧ e1.1 ≠ src := by
      have h2 := h1.1
      unfold isUnder at h2
      rw [Bool.and_eq_true, decide_eq_true_eq] at h2
      exact h2
    have hpe1 : (planEntry tgt respond e1).1 = e1.1 := rfl
    rw [hpe1] at heq
    rw [heq] at hu1
    rcases isPrefixB_concat.mp hu1.1 with hpre | heq2
    · have hpl2 : (planEntry tgt respond e2).2 = tgt ++ [sortFolder respond e2] := rfl
      rw [hpl2] at hpre
      have hf := hdisj (sortFolder respond e2) (sortFolder_mem respond e2)
      rw [hf] at hpre
      exact Bool.noConfusion hpre
    · exact hu1.2 heq2.symm
  have hlookup : alookup (mkCategoryDirs fs tgt).files e.1 = some e.2 := by
    rw [hfsfiles]
    refine alookup_of_mem ?_ hnodup
    rw [Prod.mk.eta]
    exact (List.mem_filter.mp he).1
  have hpr : planEntry tgt respond e ∈ (filesToSort fs src).map (planEntry tgt respond) :=
    List.mem_map_of_mem (planEntry tgt respond) he
  have hmaster := applySort_noFail_spec ((filesToSort fs src).map (planEntry tgt respond))
    (mkCategoryDirs fs tgt) hfail hdirs hnodup1 hplannd hsd
    (planEntry tgt respond e) hpr e.2 hlookup
  refine ⟨?_, ?_, ?_⟩
  · rw [hrt]
    exact hmaster.1
  · rw [hrt]
    exact hmaster.2
  · show isUnder src ((planEntry tgt respond e).2 ++ [basename e.1]) = false
    by_cases hp : isPrefixB src ((planEntry tgt respond e).2 ++ [basename e.1]) = true
    · rcases isPrefixB_concat.mp hp with hpre | heq2
      · have hpl2 : (planEntry tgt respond e).2 = tgt ++ [sortFolder respond e] := rfl
        rw [hpl2] at hpre
        have hf := hdisj (sortFolder respond e) (sortFolder_mem respond e)
        rw [hf] at hpre
        exact Bool.noConfusion hpre
      · rw [isUnder, heq2]
        simp
    · rw [Bool.not_eq_true] at hp
      rw [isUnder, hp]
      simp

/-- Witness for amended claim C1: one eligible file, disjoint source and
target, no failed moves. -/
theorem claim_C1_witness :
    ((fsDisjoint.files.map Prod.fst).Nodup ∧
      (∀ f ∈ CATEGORIES.map Prod.snd,
        isPrefixB [chars ("s")] ([chars ("t")] ++ [f]) = false) ∧
      (roundTrip fsDisjoint [chars ("s")] [chars ("t")] respondFail).2 = []) ∧
    C1Statement fsDisjoint [chars ("s")] [chars ("t")] respondFail :=
  ⟨⟨by decide, by decide, by decide⟩,
   claim_C1 fsDisjoint [chars ("s")] [chars ("t")] respondFail
     (by decide) (by decide) (by decide)⟩
